import Mathlib

set_option autoImplicit false

/-!
Verification of the shared-memory audio ring transport
(`src/common/SharedMemoryAudioRing.{h,cpp}`): a single-producer /
single-consumer ring of interleaved 32-bit samples stored behind a fixed
header, addressed by two monotonically increasing `uint32` frame indices.

Samples are modelled by their 32-bit bit patterns as `Nat` (the transport
only copies them, it never does floating-point arithmetic), the frame
buffer as a list of frames (each frame a list of `channels` sample
patterns, mirroring the per-frame `memcpy`), and the `uint32` header
indices as `Nat` reduced modulo `2^32` exactly where the C code's
unsigned arithmetic wraps.
-/

namespace Bridge

/-- `2^32`, the modulus of all `uint32` index arithmetic. -/
def U32 : Nat := 4294967296

/-- `kMagic = 0x53415242` ("SARB"), the header format tag. -/
def kMagic : Nat := 0x53415242

/-- `kVersion = 1`, the header layout version. -/
def kVersion : Nat := 1

/-- The ring header: `magic`, `version`, `channels`, `capacity_frames`,
and the two atomic `uint32` frame indices. -/
structure Header where
  magic : Nat
  version : Nat
  channels : Nat
  capacity_frames : Nat
  write_index : Nat
  read_index : Nat
deriving Repr, DecidableEq

/-- `uint32` subtraction `a - b` (wraparound-tolerant), for `a b < U32`. -/
def subU32 (a b : Nat) : Nat := (a + U32 - b) % U32

/-- The mapped region: the header followed by `capacity_frames` frames of
`channels` interleaved samples each. -/
structure RingState where
  header : Header
  data : List (List Nat)
deriving Repr, DecidableEq

/-- The `channels` samples of frame number `frame` inside a flat
interleaved input buffer (source index `frame * channels`, as in the
`memcpy` source of `Write`). -/
def frameChunk (input : List Nat) (channels frame : Nat) : List Nat :=
  (input.drop (frame * channels)).take channels

/-- Storage slot of the `i`-th frame relative to a `uint32` base index:
the C code computes `(base + i) % capacity` in `uint32` arithmetic, i.e.
the sum itself wraps at `2^32` first. -/
def ringPos (base i capacity : Nat) : Nat := ((base + i) % U32) % capacity

/-- The copy loop of `Write`: for `frame = 0, 1, ..., n-1` in order, store
frame `frame` of the input at slot `ringPos write frame capacity`. -/
def copyIn (channels capacity write : Nat) (input : List Nat)
    (data : List (List Nat)) : Nat → List (List Nat)
  | 0 => data
  | n + 1 =>
    (copyIn channels capacity write input data n).set
      (ringPos write n capacity) (frameChunk input channels n)

/-- The copy loop of `Read`: concatenate, for `frame = 0, 1, ..., n-1`,
the frame stored at slot `ringPos read frame capacity`. -/
def readOut (capacity read : Nat) (data : List (List Nat)) : Nat → List Nat
  | 0 => []
  | n + 1 =>
    readOut capacity read data n ++ (data.getD (ringPos read n capacity) [])

/-- `SharedMemoryAudioRing::Write` on an open mapping (lines 133-153):
clamp to free space computed from the `uint32` index difference, copy
frame by frame, then publish `write_index + to_write` (mod `2^32`).
Returns the new state and the frame count written. -/
def writeCore (st : RingState) (input : List Nat) (frame_count : Nat) :
    RingState × Nat :=
  if frame_count = 0 then (st, 0) else
  let channels := st.header.channels
  let capacity := st.header.capacity_frames
  let write := st.header.write_index
  let read := st.header.read_index
  let used := subU32 write read
  let free_frames := capacity - min used capacity
  let to_write := min frame_count free_frames
  if to_write = 0 then (st, 0) else
  let data := copyIn channels capacity write input st.data to_write
  ({ header := { st.header with write_index := (write + to_write) % U32 },
     data := data }, to_write)

/-- `SharedMemoryAudioRing::Read` on an open mapping (lines 161-180):
clamp to available data, copy frame by frame into the caller's buffer,
then publish `read_index + to_read` (mod `2^32`). Returns the new state,
the samples delivered to the caller, and the frame count read. -/
def readCore (st : RingState) (frame_count : Nat) :
    RingState × List Nat × Nat :=
  if frame_count = 0 then (st, [], 0) else
  let capacity := st.header.capacity_frames
  let write := st.header.write_index
  let read := st.header.read_index
  let available := min (subU32 write read) capacity
  let to_read := min frame_count available
  if to_read = 0 then (st, [], 0) else
  let out := readOut capacity read st.data to_read
  ({ header := { st.header with read_index := (read + to_read) % U32 },
     data := st.data }, out, to_read)

/-- The mapped region right after `memset(mapping_, 0, mapping_size_)`
followed by the header stamp of `InitializeIfNeeded`: fresh magic,
version and geometry, both indices `0`, all samples zero. -/
def zeroState (channels capacity_frames : Nat) : RingState :=
  { header := { magic := kMagic, version := kVersion, channels := channels,
                capacity_frames := capacity_frames,
                write_index := 0, read_index := 0 },
    data := List.replicate capacity_frames (List.replicate channels 0) }

/-- An all-zero mapped region of the requested geometry (what a freshly
created, `ftruncate`d backing file maps to before any header stamp). -/
def zeroRegion (channels capacity_frames : Nat) : RingState :=
  { header := { magic := 0, version := 0, channels := 0, capacity_frames := 0,
                write_index := 0, read_index := 0 },
    data := List.replicate capacity_frames (List.replicate channels 0) }

/-- `SharedMemoryAudioRing::InitializeIfNeeded` (lines 41-63): wipe the
whole region and restamp the header whenever `create` is set or any of
magic, version, channels, capacity disagree; otherwise leave the mapped
state untouched (attach semantics). -/
def InitializeIfNeeded (create : Bool) (channels capacity_frames : Nat)
    (st : RingState) : RingState :=
  if create = true ∨ st.header.magic ≠ kMagic ∨ st.header.version ≠ kVersion ∨
      st.header.channels ≠ channels ∨
      st.header.capacity_frames ≠ capacity_frames then
    zeroState channels capacity_frames
  else st

/-- A `SharedMemoryAudioRing` instance: `headerData = none` models
`header_ == nullptr` (not open). -/
structure Ring where
  headerData : Option RingState
deriving Repr, DecidableEq

/-- The unopened instance (default-constructed, or after `Close`). -/
def Ring.closed : Ring := { headerData := none }

/-- `SharedMemoryAudioRing::Close`: resets the instance to the unopened
state (the backing store itself is untouched). -/
def Ring.Close (_ : Ring) : Ring := Ring.closed

/-- `is_open()`: true iff `header_ != nullptr`. -/
def Ring.is_open (r : Ring) : Bool := r.headerData.isSome

/-- `channels()` accessor: `0` when not open. -/
def Ring.channels (r : Ring) : Nat :=
  match r.headerData with
  | none => 0
  | some st => st.header.channels

/-- `capacity_frames()` accessor: `0` when not open. -/
def Ring.capacity_frames (r : Ring) : Nat :=
  match r.headerData with
  | none => 0
  | some st => st.header.capacity_frames

/-- Instance-level `Write`: returns `0` when the ring is not open or the
input pointer is null (`none`); otherwise runs the core algorithm. -/
def Ring.Write (r : Ring) (input : Option (List Nat)) (frame_count : Nat) :
    Ring × Nat :=
  match r.headerData, input with
  | some st, some inp =>
    let p := writeCore st inp frame_count
    ({ headerData := some p.1 }, p.2)
  | _, _ => (r, 0)

/-- Instance-level `Read`: returns `0` frames when the ring is not open
or the output pointer is null (`none`); otherwise runs the core
algorithm. -/
def Ring.Read (r : Ring) (output_valid : Bool) (frame_count : Nat) :
    Ring × List Nat × Nat :=
  match r.headerData, output_valid with
  | some st, true =>
    let p := readCore st frame_count
    ({ headerData := some p.1 }, p.2)
  | _, _ => (r, [], 0)

/-- Drop a single leading `'/'` from the logical name, as in
`if (!path_name.empty() && path_name[0] == '/') path_name.erase(0, 1)`. -/
def stripLeadingSep (s : List Char) : List Char :=
  match s with
  | [] => []
  | c :: rest => if c = '/' then rest else c :: rest

/-- The transformed name: one leading separator stripped, every remaining
`'/'` replaced by `'_'` (`std::replace`). -/
def pathName (name : List Char) : List Char :=
  (stripLeadingSep name).map (fun c => if c = '/' then '_' else c)

/-- The backing file path `"/tmp/" + path_name + ".ring"`. -/
def backingFile (name : List Char) : List Char :=
  "/tmp/".data ++ pathName name ++ ".ring".data

/-- `SharedMemoryAudioRing::Open` (lines 65-112), with the persistent
backing store content modelled as `store : Option RingState` (`none` =
the backing file does not exist). The instance is closed first; invalid
parameters fail with the store untouched; opening a missing file without
`create` fails (`open` without `O_CREAT`); otherwise the region is mapped
(a fresh file maps as all zeros at the requested geometry, an existing
one keeps its header and data) and `InitializeIfNeeded` runs on it. -/
def Ring.Open (_ : Ring) (store : Option RingState) (name : List Char)
    (create : Bool) (channels capacity_frames : Nat) :
    Ring × Option RingState × Bool :=
  if name = [] ∨ channels = 0 ∨ capacity_frames = 0 then
    (Ring.closed, store, false)
  else
    match store, create with
    | none, false => (Ring.closed, none, false)
    | none, true =>
      let st := InitializeIfNeeded true channels capacity_frames
        (zeroRegion channels capacity_frames)
      ({ headerData := some st }, some st, true)
    | some st, _ =>
      let st2 := InitializeIfNeeded create channels capacity_frames st
      ({ headerData := some st2 }, some st2, true)

/-- One hot-path call on an open ring, for stating invariants over call
sequences. -/
inductive RingOp where
  | write (input : List Nat) (frame_count : Nat)
  | read (frame_count : Nat)
deriving Repr

/-- State transition of a single `Write` or `Read` call. -/
def stepOp (st : RingState) : RingOp → RingState
  | .write input n => (writeCore st input n).1
  | .read n => (readCore st n).1

/-- Run a sequence of `Write`/`Read` calls from a state. -/
def runOps (st : RingState) : List RingOp → RingState
  | [] => st
  | op :: rest => runOps (stepOp st op) rest

/-- The flat sample indices `dst_frame * channels + c` touched in the
frame buffer by `Write`'s copy loop. -/
def writeAccesses (channels capacity write to_write : Nat) : List Nat :=
  ((List.range to_write).map (fun frame =>
    (List.range channels).map (fun c =>
      ringPos write frame capacity * channels + c))).flatten

/-- The flat sample indices `src_frame * channels + c` touched in the
frame buffer by `Read`'s copy loop. -/
def readAccesses (channels capacity read to_read : Nat) : List Nat :=
  ((List.range to_read).map (fun frame =>
    (List.range channels).map (fun c =>
      ringPos read frame capacity * channels + c))).flatten

end Bridge

namespace Bridge

/-! ### Characterization lemmas for the core algorithms -/

lemma writeCore_count (st : RingState) (input : List Nat) (fc : Nat) :
    (writeCore st input fc).2 =
      min fc (st.header.capacity_frames -
        min (subU32 st.header.write_index st.header.read_index)
          st.header.capacity_frames) := by
  unfold writeCore
  by_cases h : fc = 0
  · subst h; simp
  · simp only [if_neg h]
    by_cases h2 : min fc (st.header.capacity_frames -
        min (subU32 st.header.write_index st.header.read_index)
          st.header.capacity_frames) = 0
    · simp [h2]
    · simp [h2]

lemma writeCore_state (st : RingState) (input : List Nat) (fc : Nat)
    (h : ¬ (fc = 0 ∨ min fc (st.header.capacity_frames -
        min (subU32 st.header.write_index st.header.read_index)
          st.header.capacity_frames) = 0)) :
    (writeCore st input fc).1 =
      { header := { st.header with write_index :=
          (st.header.write_index + min fc (st.header.capacity_frames -
            min (subU32 st.header.write_index st.header.read_index)
              st.header.capacity_frames)) % U32 },
        data := copyIn st.header.channels st.header.capacity_frames
          st.header.write_index input st.data
          (min fc (st.header.capacity_frames -
            min (subU32 st.header.write_index st.header.read_index)
              st.header.capacity_frames)) } := by
  push_neg at h
  unfold writeCore
  simp [h.1, h.2]

lemma writeCore_state_zero (st : RingState) (input : List Nat) (fc : Nat)
    (h : fc = 0 ∨ min fc (st.header.capacity_frames -
        min (subU32 st.header.write_index st.header.read_index)
          st.header.capacity_frames) = 0) :
    (writeCore st input fc).1 = st := by
  unfold writeCore
  rcases h with h | h
  · simp [h]
  · by_cases h0 : fc = 0
    · simp [h0]
    · simp [h0, h]

lemma readCore_count (st : RingState) (fc : Nat) :
    (readCore st fc).2.2 =
      min fc (min (subU32 st.header.write_index st.header.read_index)
        st.header.capacity_frames) := by
  unfold readCore
  by_cases h : fc = 0
  · subst h; simp
  · simp only [if_neg h]
    by_cases h2 : min fc (min (subU32 st.header.write_index st.header.read_index)
        st.header.capacity_frames) = 0
    · simp [h2]
    · simp [h2]

lemma readCore_nonzero (st : RingState) (fc : Nat)
    (h : ¬ (fc = 0 ∨ min fc (min (subU32 st.header.write_index st.header.read_index)
        st.header.capacity_frames) = 0)) :
    readCore st fc =
      ({ header := { st.header with read_index :=
          (st.header.read_index + min fc
            (min (subU32 st.header.write_index st.header.read_index)
              st.header.capacity_frames)) % U32 },
         data := st.data },
       readOut st.header.capacity_frames st.header.read_index st.data
         (min fc (min (subU32 st.header.write_index st.header.read_index)
           st.header.capacity_frames)),
       min fc (min (subU32 st.header.write_index st.header.read_index)
         st.header.capacity_frames)) := by
  push_neg at h
  unfold readCore
  simp [h.1, h.2]

lemma readCore_zero (st : RingState) (fc : Nat)
    (h : fc = 0 ∨ min fc (min (subU32 st.header.write_index st.header.read_index)
        st.header.capacity_frames) = 0) :
    readCore st fc = (st, [], 0) := by
  unfold readCore
  rcases h with h | h
  · simp [h]
  · by_cases h0 : fc = 0
    · simp [h0]
    · simp [h0, h]

/-- `write_index - read_index` on an empty ring (`write = read`) is `0`. -/
lemma subU32_self (a : Nat) : subU32 a a = 0 := by
  simp [subU32, U32]

end Bridge

namespace Bridge

/-! ### Buffer slot lemmas -/

lemma getD_set_self {α : Type} (l : List α) (i : Nat) (h : i < l.length)
    (a d : α) : (l.set i a).getD i d = a := by
  simp [List.getD_eq_getElem?_getD, List.getElem?_set, h]

lemma getD_set_other {α : Type} (l : List α) (i j : Nat) (h : i ≠ j)
    (a d : α) : (l.set i a).getD j d = l.getD j d := by
  simp [List.getD_eq_getElem?_getD, List.getElem?_set_ne h]

lemma copyIn_length (ch cap w : Nat) (input : List Nat)
    (data : List (List Nat)) :
    ∀ n, (copyIn ch cap w input data n).length = data.length := by
  intro n
  induction n with
  | zero => rfl
  | succ n ih => simp [copyIn, List.length_set, ih]

lemma copyIn_getD_other (ch cap w : Nat) (input : List Nat)
    (data : List (List Nat)) (p : Nat) (d : List Nat) :
    ∀ n, (∀ i, i < n → ringPos w i cap ≠ p) →
      (copyIn ch cap w input data n).getD p d = data.getD p d := by
  intro n
  induction n with
  | zero => intro _; rfl
  | succ n ih =>
    intro h
    have hne : ringPos w n cap ≠ p := h n (Nat.lt_succ_self n)
    rw [copyIn, getD_set_other _ _ _ hne]
    exact ih (fun i hi => h i (Nat.lt_succ_of_lt hi))

lemma copyIn_getD_hit (ch cap w : Nat) (input : List Nat)
    (data : List (List Nat)) (d : List Nat) :
    ∀ n i, i < n →
      (∀ j, j < n → ringPos w j cap = ringPos w i cap → j = i) →
      ringPos w i cap < data.length →
      (copyIn ch cap w input data n).getD (ringPos w i cap) d
        = frameChunk input ch i := by
  intro n
  induction n with
  | zero => intro i hi; exact absurd hi (Nat.not_lt_zero i)
  | succ n ih =>
    intro i hi hinj hlen
    by_cases he : i = n
    · subst he
      have hlen2 : ringPos w i cap < (copyIn ch cap w input data i).length := by
        rw [copyIn_length]; exact hlen
      rw [copyIn]
      exact getD_set_self _ _ hlen2 _ _
    · have hi' : i < n := by omega
      have hne : ringPos w n cap ≠ ringPos w i cap := by
        intro hcontra
        exact he (hinj n (Nat.lt_succ_self n) hcontra).symm
      rw [copyIn, getD_set_other _ _ _ hne]
      exact ih i hi' (fun j hj hpj => hinj j (Nat.lt_succ_of_lt hj) hpj) hlen

lemma readOut_eq_flatten (cap r : Nat) (data : List (List Nat)) :
    ∀ n, readOut cap r data n =
      ((List.range n).map (fun i => data.getD (ringPos r i cap) [])).flatten := by
  intro n
  induction n with
  | zero => rfl
  | succ n ih => simp [readOut, List.range_succ, ih]

lemma flatten_chunks (input : List Nat) (ch : Nat) :
    ∀ n, ((List.range n).map (fun i => frameChunk input ch i)).flatten
      = input.take (n * ch) := by
  intro n
  induction n with
  | zero => simp
  | succ n ih =>
    rw [List.range_succ, List.map_append, List.flatten_append, ih]
    simp only [List.map_cons, List.map_nil, List.flatten_cons,
      List.flatten_nil, List.append_nil, frameChunk]
    rw [← List.take_add, Nat.succ_mul]

lemma readOut_length (cap r ch : Nat) (data : List (List Nat))
    (hlen : data.length = cap) (hwf : ∀ f ∈ data, f.length = ch)
    (hcap : 0 < cap) :
    ∀ n, (readOut cap r data n).length = n * ch := by
  intro n
  induction n with
  | zero => simp [readOut]
  | succ n ih =>
    have hpos : ringPos r n cap < data.length := by
      rw [hlen]; exact Nat.mod_lt _ hcap
    have hmem : data.getD (ringPos r n cap) [] ∈ data := by
      rw [List.getD_eq_getElem _ _ hpos]
      exact List.getElem_mem hpos
    have hch : (data.getD (ringPos r n cap) []).length = ch := hwf _ hmem
    rw [readOut, List.length_append, ih, hch, Nat.succ_mul]

/-! ### Index arithmetic lemmas -/

lemma subU32_add_cancel (w k : Nat) (hw : w < U32) (hk : k < U32) :
    subU32 ((w + k) % U32) w = k := by
  simp only [subU32, U32] at *
  omega

lemma ringPos_inj (w cap N : Nat) (hNcap : N ≤ cap)
    (hring : ∀ i, i < N → ringPos w i cap = (w + i) % cap) :
    ∀ i j, i < N → j < N → ringPos w i cap = ringPos w j cap → i = j := by
  intro i j hi hj heq
  rw [hring i hi, hring j hj] at heq
  have h1 : i ≡ j [MOD cap] := Nat.ModEq.add_left_cancel' w heq
  have hi' : i < cap := lt_of_lt_of_le hi hNcap
  have hj' : j < cap := lt_of_lt_of_le hj hNcap
  have := h1
  unfold Nat.ModEq at this
  rw [Nat.mod_eq_of_lt hi', Nat.mod_eq_of_lt hj'] at this
  exact this

end Bridge

namespace Bridge

/-- Round trip on an empty ring: when frame addressing does not suffer the
`mod 2^32` / `mod capacity` mismatch (hypothesis `hring`), writing `N`
frames and immediately reading `N` frames transfers them bit-identically,
in order. -/
lemma writeRead_roundtrip (st : RingState) (input : List Nat) (N : Nat)
    (hempty : st.header.write_index = st.header.read_index)
    (hw : st.header.write_index < U32)
    (hcap : st.header.capacity_frames < U32)
    (hN : 0 < N) (hNcap : N ≤ st.header.capacity_frames)
    (hdata : st.data.length = st.header.capacity_frames)
    (hinput : input.length = N * st.header.channels)
    (hring : ∀ i, i < N →
      ringPos st.header.write_index i st.header.capacity_frames
        = (st.header.write_index + i) % st.header.capacity_frames) :
    (writeCore st input N).2 = N ∧
    (readCore (writeCore st input N).1 N).2.2 = N ∧
    (readCore (writeCore st input N).1 N).2.1 = input := by
  obtain ⟨⟨m, v, ch, cap, w, r⟩, data⟩ := st
  simp only at hempty hw hcap hNcap hdata hinput hring
  subst hempty
  have used0 : subU32 w w = 0 := subU32_self w
  have hminN : min N (cap - min (subU32 w w) cap) = N := by
    rw [used0]; omega
  have hcond : ¬ (N = 0 ∨ min N (cap - min (subU32 w w) cap) = 0) := by
    rw [hminN]; omega
  have hcount : (writeCore ⟨⟨m, v, ch, cap, w, w⟩, data⟩ input N).2 = N := by
    rw [writeCore_count]; exact hminN
  have hstate := writeCore_state ⟨⟨m, v, ch, cap, w, w⟩, data⟩ input N hcond
  simp only at hstate
  rw [hminN] at hstate
  refine ⟨hcount, ?_⟩
  rw [hstate]
  have hNU : N < U32 := lt_of_le_of_lt hNcap hcap
  have hsub : subU32 ((w + N) % U32) w = N := subU32_add_cancel w N hw hNU
  have hrcount : min N (min (subU32 ((w + N) % U32) w) cap) = N := by
    rw [hsub]; omega
  have hrcond : ¬ (N = 0 ∨
      min N (min (subU32 ((w + N) % U32) w) cap) = 0) := by
    rw [hrcount]; omega
  have hread := readCore_nonzero
    ⟨⟨m, v, ch, cap, (w + N) % U32, w⟩,
      copyIn ch cap w input data N⟩ N (by simpa using hrcond)
  simp only at hread
  rw [hread]
  simp only [hrcount]
  refine ⟨trivial, ?_⟩
  rw [readOut_eq_flatten]
  have hcap0 : 0 < cap := lt_of_lt_of_le hN hNcap
  have hgetD : ∀ i ∈ List.range N,
      (copyIn ch cap w input data N).getD (ringPos w i cap) []
        = frameChunk input ch i := by
    intro i hi
    rw [List.mem_range] at hi
    refine copyIn_getD_hit ch cap w input data [] N i hi ?_ ?_
    · intro j hj hpj
      exact ringPos_inj w cap N hNcap hring j i hj hi hpj
    · rw [hdata]
      exact Nat.mod_lt _ hcap0
  calc ((List.range N).map (fun i =>
        (copyIn ch cap w input data N).getD (ringPos w i cap) [])).flatten
      = ((List.range N).map (fun i => frameChunk input ch i)).flatten := by
        rw [List.map_congr_left hgetD]
    _ = input.take (N * ch) := flatten_chunks input ch N
    _ = input := by rw [← hinput, List.take_length]

end Bridge

namespace Bridge

/-! ### The buffered-frames invariant -/

/-- Well-formed index state: both `uint32` indices are in range and the
wraparound-tolerant difference `write_index - read_index` (the buffered
frame count) is at most the capacity. -/
def goodState (st : RingState) : Prop :=
  st.header.capacity_frames < U32 ∧
  st.header.write_index < U32 ∧
  st.header.read_index < U32 ∧
  subU32 st.header.write_index st.header.read_index ≤
    st.header.capacity_frames

lemma writeCore_good (st : RingState) (input : List Nat) (fc : Nat)
    (h : goodState st) : goodState (writeCore st input fc).1 := by
  by_cases hc : fc = 0 ∨ min fc (st.header.capacity_frames -
      min (subU32 st.header.write_index st.header.read_index)
        st.header.capacity_frames) = 0
  · rw [writeCore_state_zero st input fc hc]; exact h
  · rw [writeCore_state st input fc hc]
    obtain ⟨⟨m, v, ch, cap, w, r⟩, data⟩ := st
    obtain ⟨hcap, hw, hr, hu⟩ := h
    simp only [goodState, subU32, U32] at *
    omega

lemma readCore_good (st : RingState) (fc : Nat)
    (h : goodState st) : goodState (readCore st fc).1 := by
  by_cases hc : fc = 0 ∨ min fc
      (min (subU32 st.header.write_index st.header.read_index)
        st.header.capacity_frames) = 0
  · rw [readCore_zero st fc hc]; exact h
  · rw [readCore_nonzero st fc hc]
    obtain ⟨⟨m, v, ch, cap, w, r⟩, data⟩ := st
    obtain ⟨hcap, hw, hr, hu⟩ := h
    simp only [goodState, subU32, U32] at *
    omega

lemma stepOp_good (st : RingState) (op : RingOp)
    (h : goodState st) : goodState (stepOp st op) := by
  cases op with
  | write input n => exact writeCore_good st input n h
  | read n => exact readCore_good st n h

lemma runOps_good (ops : List RingOp) :
    ∀ st : RingState, goodState st → goodState (runOps st ops) := by
  induction ops with
  | nil => intro st h; exact h
  | cons op rest ih => intro st h; exact ih _ (stepOp_good st op h)

lemma writeCore_capacity (st : RingState) (input : List Nat) (fc : Nat) :
    (writeCore st input fc).1.header.capacity_frames =
      st.header.capacity_frames := by
  by_cases hc : fc = 0 ∨ min fc (st.header.capacity_frames -
      min (subU32 st.header.write_index st.header.read_index)
        st.header.capacity_frames) = 0
  · rw [writeCore_state_zero st input fc hc]
  · rw [writeCore_state st input fc hc]

lemma readCore_capacity (st : RingState) (fc : Nat) :
    (readCore st fc).1.header.capacity_frames =
      st.header.capacity_frames := by
  by_cases hc : fc = 0 ∨ min fc
      (min (subU32 st.header.write_index st.header.read_index)
        st.header.capacity_frames) = 0
  · rw [readCore_zero st fc hc]
  · rw [readCore_nonzero st fc hc]

lemma stepOp_capacity (st : RingState) (op : RingOp) :
    (stepOp st op).header.capacity_frames = st.header.capacity_frames := by
  cases op with
  | write input n => exact writeCore_capacity st input n
  | read n => exact readCore_capacity st n

lemma runOps_capacity (ops : List RingOp) :
    ∀ st : RingState, (runOps st ops).header.capacity_frames =
      st.header.capacity_frames := by
  induction ops with
  | nil => intro st; rfl
  | cons op rest ih =>
    intro st
    rw [runOps, ih, stepOp_capacity]

lemma zeroState_good (ch cap : Nat) (hcap : cap < U32) :
    goodState (zeroState ch cap) := by
  simp [goodState, zeroState, subU32, U32] at *
  omega

end Bridge

namespace Bridge

lemma accessBound (ch cap base t : Nat) (hcap : 0 < cap) :
    ∀ idx ∈ ((List.range t).map (fun frame =>
      (List.range ch).map (fun c =>
        ringPos base frame cap * ch + c))).flatten, idx < cap * ch := by
  intro idx hidx
  rw [List.mem_flatten] at hidx
  obtain ⟨l, hl, hidxl⟩ := hidx
  rw [List.mem_map] at hl
  obtain ⟨frame, hframe, rfl⟩ := hl
  rw [List.mem_map] at hidxl
  obtain ⟨c, hc, rfl⟩ := hidxl
  rw [List.mem_range] at hc
  have hpos : ringPos base frame cap < cap := Nat.mod_lt _ hcap
  calc ringPos base frame cap * ch + c
      < ringPos base frame cap * ch + ch := by omega
    _ = (ringPos base frame cap + 1) * ch := by ring
    _ ≤ cap * ch := Nat.mul_le_mul_right ch hpos

/-- C3: on an open ring with non-null input, `Write` returns exactly
`min(frame_count, capacity - used)` with `used = min(write - read, capacity)`,
`Read` returns exactly `min(frame_count, used)`, and writing
`capacity + K` frames into an empty ring returns exactly `capacity`
and leaves the ring full (`used = capacity`). -/
theorem c3_transfer_counts (st : RingState) (input : List Nat) (fc K : Nat)
    (hw : st.header.write_index < U32) (hr : st.header.read_index < U32)
    (hcap : st.header.capacity_frames < U32) :
    (Ring.Write { headerData := some st } (some input) fc).2 =
      min fc (st.header.capacity_frames -
        min (subU32 st.header.write_index st.header.read_index)
          st.header.capacity_frames) ∧
    (Ring.Read { headerData := some st } true fc).2.2 =
      min fc (min (subU32 st.header.write_index st.header.read_index)
        st.header.capacity_frames) ∧
    (subU32 st.header.write_index st.header.read_index = 0 →
      (writeCore st input (st.header.capacity_frames + K)).2 =
        st.header.capacity_frames ∧
      subU32
        (writeCore st input (st.header.capacity_frames + K)).1.header.write_index
        (writeCore st input (st.header.capacity_frames + K)).1.header.read_index
        = st.header.capacity_frames) := by
  refine ⟨?_, ?_, ?_⟩
  · simp only [Ring.Write]
    exact writeCore_count st input fc
  · simp only [Ring.Read]
    exact readCore_count st fc
  · intro hempty
    have hwr : st.header.write_index = st.header.read_index := by
      simp only [subU32, U32] at hempty hw hr
      omega
    constructor
    · rw [writeCore_count, hempty]
      omega
    · by_cases hc0 : st.header.capacity_frames = 0
      · rw [writeCore_state_zero st input _ (by rw [hempty]; omega)]
        rw [hwr, subU32_self, hc0]
      · have hcond : ¬ (st.header.capacity_frames + K = 0 ∨
            min (st.header.capacity_frames + K)
              (st.header.capacity_frames -
                min (subU32 st.header.write_index st.header.read_index)
                  st.header.capacity_frames) = 0) := by
          rw [hempty]; omega
        rw [writeCore_state st input _ hcond]
        simp only
        rw [hempty]
        have hm : min (st.header.capacity_frames + K)
            (st.header.capacity_frames - min 0 st.header.capacity_frames) =
            st.header.capacity_frames := by omega
        rw [hm, hwr]
        exact subU32_add_cancel st.header.read_index
          st.header.capacity_frames hr hcap

/-- C3 witness: capacity 4, channels 1, empty ring; writing 6 frames
returns `min 6 4 = 4` and fills the ring (`used = 4`). -/
theorem c3_transfer_counts_witness :
    (Ring.Write { headerData := some (zeroState 1 4) }
        (some [1, 2, 3, 4, 5, 6]) 6).2 =
      min 6 ((zeroState 1 4).header.capacity_frames -
        min (subU32 (zeroState 1 4).header.write_index
          (zeroState 1 4).header.read_index)
          (zeroState 1 4).header.capacity_frames) ∧
    (Ring.Read { headerData := some (zeroState 1 4) } true 6).2.2 =
      min 6 (min (subU32 (zeroState 1 4).header.write_index
        (zeroState 1 4).header.read_index)
        (zeroState 1 4).header.capacity_frames) ∧
    (writeCore (zeroState 1 4) [1, 2, 3, 4, 5, 6]
        ((zeroState 1 4).header.capacity_frames + 2)).2 =
      (zeroState 1 4).header.capacity_frames ∧
    subU32
      (writeCore (zeroState 1 4) [1, 2, 3, 4, 5, 6]
        ((zeroState 1 4).header.capacity_frames + 2)).1.header.write_index
      (writeCore (zeroState 1 4) [1, 2, 3, 4, 5, 6]
        ((zeroState 1 4).header.capacity_frames + 2)).1.header.read_index
      = (zeroState 1 4).header.capacity_frames :=
  ⟨(c3_transfer_counts (zeroState 1 4) [1, 2, 3, 4, 5, 6] 6 2
      (by decide) (by decide) (by decide)).1,
   (c3_transfer_counts (zeroState 1 4) [1, 2, 3, 4, 5, 6] 6 2
      (by decide) (by decide) (by decide)).2.1,
   ((c3_transfer_counts (zeroState 1 4) [1, 2, 3, 4, 5, 6] 6 2
      (by decide) (by decide) (by decide)).2.2 (by decide)).1,
   ((c3_transfer_counts (zeroState 1 4) [1, 2, 3, 4, 5, 6] 6 2
      (by decide) (by decide) (by decide)).2.2 (by decide)).2⟩

/-- C4: `Read` on an empty ring returns `0` frames (and no samples);
in general it returns `min(frame_count, available)`, never the request,
and delivers exactly `frames_read * channels` samples to the caller
(nothing fabricated beyond the returned count). -/
theorem c4_underrun (st : RingState) (fc : Nat)
    (hlen : st.data.length = st.header.capacity_frames)
    (hwf : ∀ f ∈ st.data, f.length = st.header.channels) :
    (st.header.write_index = st.header.read_index →
      readCore st fc = (st, [], 0)) ∧
    (readCore st fc).2.2 =
      min fc (min (subU32 st.header.write_index st.header.read_index)
        st.header.capacity_frames) ∧
    ((readCore st fc).2.1).length =
      (readCore st fc).2.2 * st.header.channels := by
  refine ⟨?_, readCore_count st fc, ?_⟩
  · intro he
    apply readCore_zero
    rw [he, subU32_self]
    omega
  · by_cases hc : fc = 0 ∨ min fc
        (min (subU32 st.header.write_index st.header.read_index)
          st.header.capacity_frames) = 0
    · rw [readCore_zero st fc hc]
      simp
    · rw [readCore_nonzero st fc hc]
      push_neg at hc
      have hcap0 : 0 < st.header.capacity_frames := by omega
      exact readOut_length st.header.capacity_frames st.header.read_index
        st.header.channels st.data hlen hwf hcap0 _

/-- A concrete 2-channel ring of capacity 3 holding one buffered frame
`[7, 8]`, used to witness the underrun behavior. -/
def oneFrameState : RingState :=
  { header := { magic := kMagic, version := kVersion, channels := 2,
                capacity_frames := 3, write_index := 1, read_index := 0 },
    data := [[7, 8], [0, 0], [0, 0]] }

/-- C4 witness: reading 5 frames from `oneFrameState` returns exactly 1
frame, i.e. 2 samples. -/
theorem c4_underrun_witness :
    (oneFrameState.header.write_index = oneFrameState.header.read_index →
      readCore oneFrameState 5 = (oneFrameState, [], 0)) ∧
    (readCore oneFrameState 5).2.2 =
      min 5 (min (subU32 oneFrameState.header.write_index
        oneFrameState.header.read_index)
        oneFrameState.header.capacity_frames) ∧
    ((readCore oneFrameState 5).2.1).length =
      (readCore oneFrameState 5).2.2 * oneFrameState.header.channels :=
  c4_underrun oneFrameState 5 (by decide) (by decide)

/-- C7: `Open` with an empty name, zero channels or zero capacity fails,
touches no backing store, and leaves the instance unopened. -/
theorem c7_open_invalid (r : Ring) (store : Option RingState)
    (name : List Char) (create : Bool) (ch cap : Nat)
    (h : name = [] ∨ ch = 0 ∨ cap = 0) :
    Ring.Open r store name create ch cap = (Ring.closed, store, false) ∧
    (Ring.Open r store name create ch cap).1.is_open = false := by
  have heq : Ring.Open r store name create ch cap =
      (Ring.closed, store, false) := by
    unfold Ring.Open
    rw [if_pos h]
  exact ⟨heq, by rw [heq]; rfl⟩

/-- C7 witness: opening with zero channels on a previously open instance
over a non-empty store fails and leaves the instance unopened. -/
theorem c7_open_invalid_witness :
    Ring.Open { headerData := some (zeroState 2 4) } (some (zeroState 2 4))
      ['a', 'b'] true 0 16 =
      (Ring.closed, some (zeroState 2 4), false) ∧
    (Ring.Open { headerData := some (zeroState 2 4) } (some (zeroState 2 4))
      ['a', 'b'] true 0 16).1.is_open = false :=
  c7_open_invalid { headerData := some (zeroState 2 4) }
    (some (zeroState 2 4)) ['a', 'b'] true 0 16 (by decide)

/-- C8: every flat sample index touched by the copy loops of `Write` and
`Read` stays below `capacity_frames * channels`, and the `Write` loop
modifies no buffer slot other than the positions
`(write_index + i) mod capacity` it targets. -/
theorem c8_access_bounds (ch cap w r t u : Nat) (hcap : 0 < cap) :
    (∀ idx ∈ writeAccesses ch cap w t, idx < cap * ch) ∧
    (∀ idx ∈ readAccesses ch cap r u, idx < cap * ch) ∧
    (∀ p : Nat, (∀ i, i < t → ringPos w i cap ≠ p) →
      ∀ (input : List Nat) (data : List (List Nat)) (d : List Nat),
        (copyIn ch cap w input data t).getD p d = data.getD p d) := by
  refine ⟨?_, ?_, ?_⟩
  · intro idx hidx
    exact accessBound ch cap w t hcap idx hidx
  · intro idx hidx
    exact accessBound ch cap r u hcap idx hidx
  · intro p hp input data d
    exact copyIn_getD_other ch cap w input data p d t hp

/-- C8 witness: with 2 channels, capacity 3, `write_index = 5`, the
sample index 4 touched when writing 2 frames is below `3 * 2 = 6`, and
slot 1 (untargeted by those frames) is untouched. -/
theorem c8_access_bounds_witness :
    (4 : Nat) < 3 * 2 ∧
    (copyIn 2 3 5 [1, 2, 3, 4] [[0, 0], [0, 0], [0, 0]] 2).getD 1 [] =
      [[0, 0], [0, 0], [0, 0]].getD 1 [] :=
  ⟨(c8_access_bounds 2 3 5 0 2 0 (by decide)).1 4 (by decide),
   (c8_access_bounds 2 3 5 0 2 0 (by decide)).2.2 1 (by decide)
     [1, 2, 3, 4] [[0, 0], [0, 0], [0, 0]] []⟩

/-- C9: the transformed backing name contains no path separator, and a
logical name with a leading separator resolves to the same backing file
as the same name without it. -/
theorem c9_backing_path (name : List Char) :
    (∀ c ∈ pathName name, c ≠ '/') ∧
    (name.head? ≠ some '/' →
      backingFile ('/' :: name) = backingFile name) := by
  constructor
  · intro c hc
    rw [pathName, List.mem_map] at hc
    obtain ⟨a, _, ha⟩ := hc
    subst ha
    by_cases h : a = '/'
    · rw [if_pos h]; decide
    · rw [if_neg h]; exact h
  · intro h
    have h1 : stripLeadingSep ('/' :: name) = name := by
      simp [stripLeadingSep]
    have h2 : stripLeadingSep name = name := by
      cases name with
      | nil => rfl
      | cons c rest =>
        have hc : ¬ c = '/' := by
          intro hc
          apply h
          rw [hc]
          rfl
        simp [stripLeadingSep, hc]
    unfold backingFile pathName
    rw [h1, h2]

/-- C9 witness: `"tts/in"` and `"/tts/in"` resolve to the same backing
file, and the character kept from the transformed name is not a
separator. -/
theorem c9_backing_path_witness :
    ('t' : Char) ≠ '/' ∧
    backingFile ('/' :: ['t', 't', 's', '/', 'i', 'n']) =
      backingFile ['t', 't', 's', '/', 'i', 'n'] :=
  ⟨(c9_backing_path ['t', 't', 's', '/', 'i', 'n']).1 't' (by decide),
   (c9_backing_path ['t', 't', 's', '/', 'i', 'n']).2 (by decide)⟩

end Bridge

namespace Bridge

lemma InitializeIfNeeded_geometry (create : Bool) (ch cap : Nat)
    (st : RingState) :
    (InitializeIfNeeded create ch cap st).header.channels = ch ∧
    (InitializeIfNeeded create ch cap st).header.capacity_frames = cap := by
  unfold InitializeIfNeeded
  by_cases hcond : create = true ∨ st.header.magic ≠ kMagic ∨
      st.header.version ≠ kVersion ∨ st.header.channels ≠ ch ∨
      st.header.capacity_frames ≠ cap
  · rw [if_pos hcond]
    exact ⟨rfl, rfl⟩
  · rw [if_neg hcond]
    push_neg at hcond
    exact ⟨hcond.2.2.2.1, hcond.2.2.2.2⟩

/-- C10: a successful `Open` leaves the accessors reporting exactly the
requested `channels` and `capacity_frames` (whatever the pre-existing
header held), and on an unopened instance both accessors return `0`. -/
theorem c10_accessors (r r2 : Ring) (store store2 : Option RingState)
    (name : List Char) (create : Bool) (ch cap : Nat) :
    (Ring.Open r store name create ch cap = (r2, store2, true) →
      r2.channels = ch ∧ r2.capacity_frames = cap) ∧
    (∀ q : Ring, q.is_open = false →
      q.channels = 0 ∧ q.capacity_frames = 0) := by
  constructor
  · intro h
    unfold Ring.Open at h
    by_cases hbad : name = [] ∨ ch = 0 ∨ cap = 0
    · rw [if_pos hbad] at h
      simp [Prod.ext_iff] at h
    · rw [if_neg hbad] at h
      cases store with
      | none =>
        cases create with
        | false => simp [Prod.ext_iff] at h
        | true =>
          simp only [Prod.ext_iff] at h
          obtain ⟨h1, _, _⟩ := h
          rw [← h1]
          simp only [Ring.channels, Ring.capacity_frames]
          exact InitializeIfNeeded_geometry true ch cap _
      | some st =>
        simp only [Prod.ext_iff] at h
        obtain ⟨h1, _, _⟩ := h
        rw [← h1]
        simp only [Ring.channels, Ring.capacity_frames]
        exact InitializeIfNeeded_geometry create ch cap st
  · intro q hq
    cases hq2 : q.headerData with
    | none => simp [Ring.channels, Ring.capacity_frames, hq2]
    | some st =>
      exfalso
      rw [Ring.is_open, hq2] at hq
      simp at hq

/-- C10 witness: opening with requested geometry (2, 4) over a store
whose header records 8 channels / capacity 16 succeeds and the accessors
report 2 and 4; the closed instance reports 0 and 0. -/
theorem c10_accessors_witness :
    Ring.channels { headerData := some (zeroState 2 4) } = 2 ∧
    Ring.capacity_frames { headerData := some (zeroState 2 4) } = 4 ∧
    Ring.channels Ring.closed = 0 ∧
    Ring.capacity_frames Ring.closed = 0 :=
  ⟨((c10_accessors Ring.closed { headerData := some (zeroState 2 4) }
      (some (zeroState 8 16)) (some (zeroState 2 4)) ['a'] false 2 4).1
      (by decide)).1,
   ((c10_accessors Ring.closed { headerData := some (zeroState 2 4) }
      (some (zeroState 8 16)) (some (zeroState 2 4)) ['a'] false 2 4).1
      (by decide)).2,
   ((c10_accessors Ring.closed { headerData := some (zeroState 2 4) }
      (some (zeroState 8 16)) (some (zeroState 2 4)) ['a'] false 2 4).2
      Ring.closed (by decide)).1,
   ((c10_accessors Ring.closed { headerData := some (zeroState 2 4) }
      (some (zeroState 8 16)) (some (zeroState 2 4)) ['a'] false 2 4).2
      Ring.closed (by decide)).2⟩

/-- C5: reopening with `create=false` and a valid matching header keeps
header, indices and buffered data untouched; reopening with `create=true`
or any header mismatch wipes the whole region (all-zero samples) and
resets both indices to `0`. -/
theorem c5_reopen (r : Ring) (st : RingState) (name : List Char)
    (create : Bool) (ch cap : Nat)
    (hname : name ≠ []) (hch : ch ≠ 0) (hcap : cap ≠ 0) :
    ((st.header.magic = kMagic ∧ st.header.version = kVersion ∧
        st.header.channels = ch ∧ st.header.capacity_frames = cap) →
      Ring.Open r (some st) name false ch cap =
        ({ headerData := some st }, some st, true)) ∧
    ((create = true ∨ st.header.magic ≠ kMagic ∨
        st.header.version ≠ kVersion ∨ st.header.channels ≠ ch ∨
        st.header.capacity_frames ≠ cap) →
      Ring.Open r (some st) name create ch cap =
        ({ headerData := some (zeroState ch cap) },
          some (zeroState ch cap), true) ∧
      (zeroState ch cap).header.write_index = 0 ∧
      (zeroState ch cap).header.read_index = 0 ∧
      (zeroState ch cap).data =
        List.replicate cap (List.replicate ch 0)) := by
  have hok : ¬ (name = [] ∨ ch = 0 ∨ cap = 0) := by
    simp [hname, hch, hcap]
  constructor
  · intro hmatch
    unfold Ring.Open
    rw [if_neg hok]
    have hinit : InitializeIfNeeded false ch cap st = st := by
      unfold InitializeIfNeeded
      rw [if_neg]
      simp [hmatch.1, hmatch.2.1, hmatch.2.2.1, hmatch.2.2.2]
    simp only [hinit]
  · intro hmis
    refine ⟨?_, rfl, rfl, rfl⟩
    unfold Ring.Open
    rw [if_neg hok]
    have hinit : InitializeIfNeeded create ch cap st = zeroState ch cap := by
      unfold InitializeIfNeeded
      rw [if_pos hmis]
    simp only [hinit]

/-- A concrete valid 2-channel, capacity-2 ring with one buffered frame,
used to witness the reopen semantics. -/
def twoCapState : RingState :=
  { header := { magic := kMagic, version := kVersion, channels := 2,
                capacity_frames := 2, write_index := 1, read_index := 0 },
    data := [[3, 4], [0, 0]] }

/-- C5 witness: attaching (`create=false`) to a matching 2-channel,
capacity-2 header with one buffered frame keeps the state; requesting
capacity 3 instead wipes it. -/
theorem c5_reopen_witness :
    Ring.Open Ring.closed (some twoCapState) ['a'] false 2 2 =
      ({ headerData := some twoCapState }, some twoCapState, true) ∧
    (Ring.Open Ring.closed (some twoCapState) ['a'] false 2 3 =
        ({ headerData := some (zeroState 2 3) },
          some (zeroState 2 3), true) ∧
      (zeroState 2 3).header.write_index = 0 ∧
      (zeroState 2 3).header.read_index = 0 ∧
      (zeroState 2 3).data = List.replicate 3 (List.replicate 2 0)) :=
  ⟨(c5_reopen Ring.closed twoCapState ['a'] false 2 2
      (by decide) (by decide) (by decide)).1 (by decide),
   (c5_reopen Ring.closed twoCapState ['a'] false 2 3
      (by decide) (by decide) (by decide)).2 (by decide)⟩

/-- C2: starting from a freshly reset header, after any sequence of
`Write`/`Read` calls the buffered frame count
`write_index - read_index` (computed mod `2^32`) is at most
`capacity_frames`. -/
theorem c2_used_invariant (ch cap : Nat) (hcap : cap < U32)
    (ops : List RingOp) :
    subU32 (runOps (zeroState ch cap) ops).header.write_index
      (runOps (zeroState ch cap) ops).header.read_index ≤ cap := by
  have hg := runOps_good ops (zeroState ch cap) (zeroState_good ch cap hcap)
  have hc := runOps_capacity ops (zeroState ch cap)
  have hle := hg.2.2.2
  rw [hc] at hle
  exact hle

/-- C2 witness: a concrete write/read/write sequence on a fresh ring of
capacity 4 keeps the buffered count at most 4. -/
theorem c2_used_invariant_witness :
    subU32 (runOps (zeroState 1 4)
        [RingOp.write [1, 2, 3] 3, RingOp.read 2,
         RingOp.write [4, 5, 6, 7] 4]).header.write_index
      (runOps (zeroState 1 4)
        [RingOp.write [1, 2, 3] 3, RingOp.read 2,
         RingOp.write [4, 5, 6, 7] 4]).header.read_index ≤ 4 :=
  c2_used_invariant 1 4 (by decide)
    [RingOp.write [1, 2, 3] 3, RingOp.read 2, RingOp.write [4, 5, 6, 7] 4]

end Bridge

namespace Bridge

lemma open_create_reset (r : Ring) (store : Option RingState)
    (name : List Char) (ch cap : Nat)
    (hname : name ≠ []) (hch : ch ≠ 0) (hcap : cap ≠ 0) :
    Ring.Open r store name true ch cap =
      ({ headerData := some (zeroState ch cap) },
        some (zeroState ch cap), true) := by
  unfold Ring.Open
  rw [if_neg (by simp [hname, hch, hcap])]
  cases store with
  | none => simp [InitializeIfNeeded]
  | some st => simp [InitializeIfNeeded]

/-- C1: for valid `(channels, capacity_frames)`, right after a successful
`Open(create=true)` a `Read` returns 0 frames and no samples, and a
`Write` of `N` frames (`0 < N ≤ capacity`) followed by a `Read` of `N`
frames returns exactly `N` frames whose samples are bit-identical to the
written input, in order. -/
theorem c1_fresh_roundtrip (r : Ring) (store : Option RingState)
    (name : List Char) (ch cap N fc : Nat) (input : List Nat)
    (hname : name ≠ []) (hch : ch ≠ 0) (hcap0 : cap ≠ 0) (hcap : cap < U32)
    (hN : 0 < N) (hNcap : N ≤ cap) (hinput : input.length = N * ch) :
    (Ring.Open r store name true ch cap).2.2 = true ∧
    (Ring.Read (Ring.Open r store name true ch cap).1 true fc).2.2 = 0 ∧
    (Ring.Read (Ring.Open r store name true ch cap).1 true fc).2.1 = [] ∧
    (Ring.Write (Ring.Open r store name true ch cap).1 (some input) N).2 = N ∧
    (Ring.Read (Ring.Write (Ring.Open r store name true ch cap).1
        (some input) N).1 true N).2.2 = N ∧
    (Ring.Read (Ring.Write (Ring.Open r store name true ch cap).1
        (some input) N).1 true N).2.1 = input := by
  rw [open_create_reset r store name ch cap hname hch hcap0]
  have hzero : readCore (zeroState ch cap) fc = (zeroState ch cap, [], 0) := by
    apply readCore_zero
    right
    simp [zeroState, subU32_self]
  have hrt := writeRead_roundtrip (zeroState ch cap) input N rfl
    (by norm_num [zeroState, U32]) hcap hN hNcap (by simp [zeroState]) hinput
    (by
      intro i hi
      unfold ringPos
      simp only [zeroState]
      have hiU : (0 : Nat) + i < U32 := by
        have h2 : i < cap := lt_of_lt_of_le hi hNcap
        simp only [U32] at hcap ⊢
        omega
      rw [Nat.mod_eq_of_lt hiU])
  refine ⟨rfl, ?_, ?_, ?_, ?_, ?_⟩
  · simp only [Ring.Read]
    rw [hzero]
  · simp only [Ring.Read]
    rw [hzero]
  · simp only [Ring.Write]
    exact hrt.1
  · simp only [Ring.Write, Ring.Read]
    exact hrt.2.1
  · simp only [Ring.Write, Ring.Read]
    exact hrt.2.2

/-- C1 witness: a fresh 2-channel, capacity-4 ring; reading 5 frames
gives 0 frames, and writing 3 frames `[1..6]` then reading 3 frames
returns `[1..6]`. -/
theorem c1_fresh_roundtrip_witness :
    (Ring.Open Ring.closed none ['a'] true 2 4).2.2 = true ∧
    (Ring.Read (Ring.Open Ring.closed none ['a'] true 2 4).1 true 5).2.2 = 0 ∧
    (Ring.Read (Ring.Open Ring.closed none ['a'] true 2 4).1 true 5).2.1 = [] ∧
    (Ring.Write (Ring.Open Ring.closed none ['a'] true 2 4).1
      (some [1, 2, 3, 4, 5, 6]) 3).2 = 3 ∧
    (Ring.Read (Ring.Write (Ring.Open Ring.closed none ['a'] true 2 4).1
      (some [1, 2, 3, 4, 5, 6]) 3).1 true 3).2.2 = 3 ∧
    (Ring.Read (Ring.Write (Ring.Open Ring.closed none ['a'] true 2 4).1
      (some [1, 2, 3, 4, 5, 6]) 3).1 true 3).2.1 = [1, 2, 3, 4, 5, 6] :=
  c1_fresh_roundtrip Ring.closed none ['a'] 2 4 3 5 [1, 2, 3, 4, 5, 6]
    (by decide) (by decide) (by decide) (by decide) (by decide) (by decide)
    (by decide)

/-- A valid empty ring with capacity 3 (which does not divide `2^32`) and
both indices pre-seeded to `UINT32_MAX`, about to cross the 32-bit
boundary. -/
def wrapBadState : RingState :=
  { header := { magic := kMagic, version := kVersion, channels := 1,
                capacity_frames := 3, write_index := 4294967295,
                read_index := 4294967295 },
    data := [[0], [0], [0]] }

/-- C6 counterexample: with capacity 3 and both indices pre-seeded to
`UINT32_MAX` (0 buffered frames), writing `[5, 7]` and reading 2 frames
returns `[7, 7]`, not the written samples: the `uint32` wrap of
`write_index + frame` before `% capacity` collides slots 0 and 0 because
3 does not divide `2^32`. -/
theorem c6_wraparound_claim_false :
    (writeCore wrapBadState [5, 7] 2).2 = 2 ∧
    (readCore (writeCore wrapBadState [5, 7] 2).1 2).2.2 = 2 ∧
    (readCore (writeCore wrapBadState [5, 7] 2).1 2).2.1 = [7, 7] ∧
    (readCore (writeCore wrapBadState [5, 7] 2).1 2).2.1 ≠ [5, 7] := by
  decide

/-- C6 (amended): with indices pre-seeded anywhere below `2^32` on an
empty ring, provided `capacity_frames` divides `2^32` (e.g. a power of
two), used/free computation and frame addressing stay correct across the
32-bit boundary: a `Write` of `N` frames followed by a `Read` of `N`
frames returns the exact written samples in order. -/
theorem c6_wraparound_roundtrip (st : RingState) (input : List Nat)
    (N : Nat)
    (hempty : st.header.write_index = st.header.read_index)
    (hw : st.header.write_index < U32)
    (hcap : st.header.capacity_frames < U32)
    (hdvd : st.header.capacity_frames ∣ U32)
    (hN : 0 < N) (hNcap : N ≤ st.header.capacity_frames)
    (hdata : st.data.length = st.header.capacity_frames)
    (hinput : input.length = N * st.header.channels) :
    (writeCore st input N).2 = N ∧
    (readCore (writeCore st input N).1 N).2.2 = N ∧
    (readCore (writeCore st input N).1 N).2.1 = input :=
  writeRead_roundtrip st input N hempty hw hcap hN hNcap hdata hinput
    (fun _ _ => Nat.mod_mod_of_dvd _ hdvd)

/-- A valid empty ring with capacity 4 (a divisor of `2^32`) and both
indices pre-seeded to `UINT32_MAX`. -/
def wrapGoodState : RingState :=
  { header := { magic := kMagic, version := kVersion, channels := 1,
                capacity_frames := 4, write_index := 4294967295,
                read_index := 4294967295 },
    data := [[0], [0], [0], [0]] }

/-- C6 witness: with capacity 4 and indices at `UINT32_MAX`, writing
`[5, 7]` and reading 2 frames crosses the 32-bit boundary and still
returns `[5, 7]`. -/
theorem c6_wraparound_roundtrip_witness :
    (writeCore wrapGoodState [5, 7] 2).2 = 2 ∧
    (readCore (writeCore wrapGoodState [5, 7] 2).1 2).2.2 = 2 ∧
    (readCore (writeCore wrapGoodState [5, 7] 2).1 2).2.1 = [5, 7] :=
  c6_wraparound_roundtrip wrapGoodState [5, 7] 2 rfl (by decide) (by decide)
    (by decide) (by decide) (by decide) (by decide) (by decide)

end Bridge
